import Mathlib

set_option maxRecDepth 8192

/-!
Verification development for the code-review backend (`src/server.js`).

The file shallowly embeds the data model (mongoose `CodeSchema`,
`LineReviewSchema`, `ReviewSchema`) and the request handlers the claims
touch (`POST /api/reviews`, `GET /api/codes/random`,
`GET /api/codes/:id/can-review`, `POST /api/codes`, `POST /api/codes/bulk`,
`GET /api/reviews/export`) as pure functions over an explicit store state.

Modelling conventions, each noted at the definition it concerns:
* MongoDB object ids are modelled as store-assigned strings `"c0"`, `"c1"`, ...
  (snippets) and sequential naturals (reviews).
* JavaScript numbers arriving in JSON are modelled as exact decimal numbers
  given by a sign, integer-part digits and fractional digits (`JSVal.jnum`);
  JavaScript strings as `JSVal.jstr`.  Truthiness of a number is `value ≠ 0`,
  of a string `s ≠ ""`, matching the `!x` checks in the handlers.
* `parseInt` (radix 10, as the handler calls it) is modelled character by
  character per ECMA-262: skip leading whitespace, optional sign, longest
  leading digit run; no digits gives `NaN`.  The digit run's value is then
  rounded to the nearest IEEE double (ties to even, overflow to Infinity),
  as the Number result of `parseInt` is.  The string form a number presents
  to `parseInt` follows the Number-to-string algorithm's notation
  selection: positional for zero and for magnitudes in [1e-6, 1e21),
  exponential otherwise (`String(0.0000001) = "1e-7"`).  The model's one
  idealisation is that a JSON decimal is carried exactly, so the canonical
  digits of the stored double are taken to be the literal's own digits;
  for the short-digit decimals in all theorems below the two coincide.
* Dates are opaque: `createdAt` carries the ISO string the export would print.
-/

/-- One decimal digit rendered as a character, `digitChar 3 = '3'`. -/
def digitChar (d : Nat) : Char := Char.ofNat (48 + d)

/-- Value of a digit character, `none` for a non-digit. -/
def digitVal (c : Char) : Option Nat :=
  if 48 ≤ c.toNat ∧ c.toNat ≤ 57 then some (c.toNat - 48) else none

/-- Value of a most-significant-first digit list: `natOfDigits [4,2] = 42`. -/
def natOfDigits (ds : List Nat) : Nat := ds.foldl (fun a d => a * 10 + d) 0

/-- Value of a fractional digit list: `fracVal [2,5] = 25/100`. -/
def fracVal (ds : List Nat) : ℚ := ds.foldr (fun (d : Nat) (acc : ℚ) => ((d : ℚ) + acc) / 10) 0

/-- A JSON value as the handlers see it: a decimal number (sign, integer-part
digits, fractional digits), a string, or `undefined`. -/
inductive JSVal where
  | jnum (neg : Bool) (ip : List Nat) (fr : List Nat)
  | jstr (s : String)
  | jundef
deriving DecidableEq

/-- Rational value of a `JSVal.jnum`. -/
def jnumValue (neg : Bool) (ip fr : List Nat) : ℚ :=
  (if neg then (-1 : ℚ) else 1) * ((natOfDigits ip : ℚ) + fracVal fr)

/-- JavaScript truthiness of a modelled JSON value (`!x` in the handlers):
a number is falsy exactly when its value is 0 — for a decimal that is when
every digit is 0, see `jsTruthy_jnum_eq_false_iff` — a string when empty,
`undefined` always. -/
def jsTruthy : JSVal → Bool
  | .jnum _ ip fr => !(ip.all (fun d => d = 0) && fr.all (fun d => d = 0))
  | .jstr s => if s = "" then false else true
  | .jundef => false

/-- Decimal digits of a natural number, most significant first, with an
explicit fuel so the definition is structural (the fuel `m + 1` always
suffices since a number has at most `m + 1` digits). -/
def natToDigitsAux : Nat → Nat → List Nat
  | 0, _ => []
  | fuel + 1, m => if m < 10 then [m] else natToDigitsAux fuel (m / 10) ++ [m % 10]

/-- Decimal digits of a natural number, most significant first. -/
def natToDigits (m : Nat) : List Nat := natToDigitsAux (m + 1) m

/-- Floor of the base-2 logarithm, structurally (fuel `m` suffices since
halving reaches 1 within `m` steps); `floorLog2 m = b` with
`2 ^ b ≤ m < 2 ^ (b + 1)` for `m ≥ 1`. -/
def floorLog2Aux : Nat → Nat → Nat
  | 0, _ => 0
  | fuel + 1, m => if m ≤ 1 then 0 else floorLog2Aux fuel (m / 2) + 1

/-- Floor of the base-2 logarithm. -/
def floorLog2 (m : Nat) : Nat := floorLog2Aux m m

/-- Drop leading zero digits. -/
def stripLeadZeros (l : List Nat) : List Nat := l.dropWhile (fun d => d = 0)

/-- Drop trailing zero digits. -/
def stripTrailZeros (l : List Nat) : List Nat :=
  (l.reverse.dropWhile (fun d => d = 0)).reverse

/-- The canonical significand digits of a decimal: ECMA-262's digit string
`s` with leading and trailing zeros removed (empty for the value 0). -/
def sciDigits (ip fr : List Nat) : List Nat := stripTrailZeros (stripLeadZeros (ip ++ fr))

/-- ECMA-262's exponent `n` for a decimal: the value is `0.s × 10 ^ n`
(position of the decimal point relative to the first significant digit). -/
def sciExp (ip fr : List Nat) : Int :=
  (ip.length : Int) - ((ip ++ fr).takeWhile (fun d => d = 0)).length

/-- Character list of the JavaScript rendering of a number given by sign,
integer-part digits and fractional digits, per ECMA-262 Number::toString
(radix 10) on the exact decimal: positional digits with padding or an
interior point, `0.`-prefixed for small magnitudes, exponential notation
(`1e-7`, `1e+21`) otherwise; `-0` renders as `"0"`. -/
def numChars (neg : Bool) (ip fr : List Nat) : List Char :=
  let s := sciDigits ip fr
  if s.isEmpty then ['0']
  else
    let n := sciExp ip fr
    let k : Int := s.length
    let sign : List Char := if neg then ['-'] else []
    if k ≤ n ∧ n ≤ 21 then
      sign ++ s.map digitChar ++ List.replicate (n - k).toNat '0'
    else if 0 < n ∧ n ≤ 21 then
      sign ++ (s.take n.toNat).map digitChar ++ '.' :: (s.drop n.toNat).map digitChar
    else if -5 ≤ n ∧ n ≤ 0 then
      sign ++ '0' :: '.' :: List.replicate (-n).toNat '0' ++ s.map digitChar
    else
      let eChars := (if n - 1 < 0 then '-' else '+') :: (natToDigits (n - 1).natAbs).map digitChar
      match s with
      | [] => ['0']
      | [d] => sign ++ digitChar d :: 'e' :: eChars
      | d :: rest => sign ++ digitChar d :: '.' :: rest.map digitChar ++ 'e' :: eChars

/-- String conversion applied by `parseInt` to its argument: a string is
itself, a number renders per `numChars`, `undefined` renders as the word
it prints as. -/
def jsToString : JSVal → String
  | .jnum neg ip fr => String.mk (numChars neg ip fr)
  | .jstr s => s
  | .jundef => "undefined"

/-- Longest leading run of digits of a character list. -/
def leadingDigits : List Char → List Nat
  | [] => []
  | c :: cs =>
    match digitVal c with
    | some d => d :: leadingDigits cs
    | none => []

/-- A JavaScript Number as `parseInt` can produce it and as it is stored:
a finite integer-valued double, `NaN` (no digits parsed), or `Infinity` /
`-Infinity` (digit run overflowing the double range). -/
inductive JSNumVal where
  | finite (n : Int)
  | nan
  | inf (neg : Bool)
deriving DecidableEq

/-- Round a natural number to the nearest IEEE double (round to nearest,
ties to even): exact up to `2 ^ 53`, then to the nearest multiple of the
spacing `2 ^ (b - 52)` of the binade `[2 ^ b, 2 ^ (b + 1))`. -/
def nearestDouble (m : Nat) : Nat :=
  if m ≤ 2 ^ 53 then m
  else
    let sp := 2 ^ (floorLog2 m - 52)
    let q := m / sp
    let r := m % sp
    if 2 * r < sp then q * sp
    else if sp < 2 * r then (q + 1) * sp
    else if q % 2 = 0 then q * sp else (q + 1) * sp

/-- Model of JavaScript `parseInt(s)` with radix 10 on a character list:
skip leading whitespace, read an optional sign, then the longest leading
digit run; no digits gives `NaN`.  The run's mathematical value becomes a
Number: the nearest double, or `±Infinity` when the rounding reaches
`2 ^ 1024`. -/
def parseIntChars (cs : List Char) : JSNumVal :=
  let cs1 := cs.dropWhile (fun c => c.isWhitespace)
  let sign : Bool × List Char :=
    match cs1 with
    | [] => (false, [])
    | c :: rest =>
      if c = '-' then (true, rest) else if c = '+' then (false, rest) else (false, c :: rest)
  let ds := leadingDigits sign.2
  if ds.isEmpty then .nan
  else
    let m := nearestDouble (natOfDigits ds)
    if 2 ^ 1024 ≤ m then .inf sign.1
    else .finite ((if sign.1 then (-1 : Int) else 1) * (m : Int))

/-- Model of `parseInt(yearsOfExperience)` at `src/server.js:243`. -/
def parseIntJS (s : String) : JSNumVal := parseIntChars s.data

/-- A character allowed in the email regex classes `[^\s@]`. -/
def emailChunkChar (c : Char) : Bool := !c.isWhitespace && c ≠ '@'

/-- Split a character list on a separator character, keeping empty parts,
like `String.prototype.split` on a single character. -/
def splitOnChar (cs : List Char) (sep : Char) : List (List Char) :=
  match cs with
  | [] => [[]]
  | c :: rest =>
    let r := splitOnChar rest sep
    if c = sep then [] :: r
    else
      match r with
      | [] => [[c]]
      | h :: t => (c :: h) :: t

/-- The domain part `[^\s@]+\.[^\s@]+` requires a dot that is neither the
first nor the last character (the two chunks may themselves carry dots). -/
def hasInteriorDot (dom : List Char) : Bool := ((dom.drop 1).dropLast).contains '.'

/-- Model of the regex test `/^[^\s@]+@[^\s@]+\.[^\s@]+$/.test(reviewerEmail)`
at `src/server.js:195`: exactly one `@`, a nonempty whitespace-free local
part, and a whitespace-free domain with an interior dot. -/
def validEmail (s : String) : Bool :=
  match splitOnChar s.data '@' with
  | [lp, dom] => !lp.isEmpty && lp.all emailChunkChar && dom.all emailChunkChar &&
      hasInteriorDot dom
  | _ => false

/-- A per-line review, both as submitted and as stored (`LineReviewSchema`). -/
structure LineReview where
  lineNumber : Int
  comment : String
  category : String
deriving DecidableEq

/-- A snippet document (`CodeSchema`): `code` is the snippet text,
`reviewedBy` the emails that have reviewed it. -/
structure Snippet where
  id : String
  title : String
  code : String
  language : String
  maxReviews : Int
  reviewCount : Int
  isCompleted : Bool
  reviewedBy : List String
deriving DecidableEq

/-- A stored review document (`ReviewSchema`).  `yearsOfExperience` holds
the result of `parseInt`; `createdAt` holds the ISO string the export
prints. -/
structure ReviewDoc where
  codeId : String
  reviewerEmail : String
  reviewerName : String
  yearsOfExperience : JSNumVal
  position : String
  generalComment : Option String
  lineReviews : List LineReview
  createdAt : String
deriving DecidableEq

/-- Request body of `POST /api/codes` and an element of the `codes` array of
`POST /api/codes/bulk`.  The bulk handler spreads the whole entry
(`...code`), so the schema fields `reviewCount`, `isCompleted`, `reviewedBy`
may arrive from the client; the single-add handler destructures only
`title`, `code`, `language`, `maxReviews` and ignores the rest. -/
structure CodeInput where
  title : String
  code : String
  language : String
  maxReviews : Option Int
  reviewCount : Option Int
  isCompleted : Option Bool
  reviewedBy : Option (List String)
deriving DecidableEq

/-- Request body of `POST /api/reviews`.  String fields model JSON strings
(absent = `""` for truthiness purposes); `yearsOfExperience` may be any
JSON value. -/
structure ReviewInput where
  codeId : String
  reviewerEmail : String
  reviewerName : String
  yearsOfExperience : JSVal
  position : String
  generalComment : Option String
  lineReviews : List LineReview
deriving DecidableEq

/-- The persistent store: the two collections plus the store-assigned id
counters. -/
structure DB where
  codes : List Snippet
  reviews : List ReviewDoc
  nextCodeId : Nat
  nextReviewId : Nat
deriving DecidableEq

/-- The store before any operation. -/
def emptyDB : DB := { codes := [], reviews := [], nextCodeId := 0, nextReviewId := 0 }

/-- Store-assigned snippet object id. -/
def freshCodeId (n : Nat) : String := "c" ++ Nat.repr n

/-- Model of `Code.findById(id)`: first document with that id (ids are
store-assigned and unique in any reachable store). -/
def findById (db : DB) (id : String) : Option Snippet :=
  db.codes.find? (fun c => c.id = id)

/-- Replace the first snippet with the given id, the effect of
`code.save()` after mutating the document `findById` returned. -/
def replaceFirst (cs : List Snippet) (id : String) (u : Snippet) : List Snippet :=
  match cs with
  | [] => []
  | c :: t => if c.id = id then u :: t else c :: replaceFirst t id u

/-- Outcome of `POST /api/reviews`: HTTP status plus the caller-visible
body.  `success` carries the `review` object of the 201 response. -/
inductive SubmitResult where
  | success (reviewId : Nat) (reviewCount : Int) (maxReviews : Int) (isCompleted : Bool)
  | badRequest (error : String)
  | notFound (error : String)
  | internalError (error : String)
deriving DecidableEq

/-- The 400 message of the required-fields check (`src/server.js:188`). -/
def missingFieldsMsg : String :=
  "Code ID, reviewer email, name, experience, position, and at least one line review are required"

/-- The 400 message of the quota check (`src/server.js:206`). -/
def quotaMsg : String := "This code has already been reviewed maximum times"

/-- The 400 message of both duplicate paths (`src/server.js:213` and the
`error.code === 11000` catch at `src/server.js:271`). -/
def duplicateMsg : String := "You have already reviewed this code"

/-- The generic 500 body of the submission handler (`src/server.js:278`). -/
def submitFailedMsg : String := "Failed to submit review"

/-- The required-fields condition of `src/server.js:179`: every listed field
truthy and `lineReviews` nonempty. -/
def requiredOk (inp : ReviewInput) : Bool :=
  !(inp.codeId = "") && !(inp.reviewerEmail = "") && !(inp.reviewerName = "") &&
    jsTruthy inp.yearsOfExperience && !(inp.position = "") && !inp.lineReviews.isEmpty

/-- The per-line validation loop of `src/server.js:220`: first failing line
wins; a line fails on a falsy `lineNumber`, `comment` or `category`, or on a
comment shorter than 10 characters (the latter message names the line). -/
def lineReviewError : List LineReview → Option String
  | [] => none
  | lr :: rest =>
    if lr.lineNumber = 0 || lr.comment = "" || lr.category = "" then
      some "Each line review must have line number, comment, and category"
    else if lr.comment.length < 10 then
      some ("Comment for line " ++ toString lr.lineNumber ++ " must be at least 10 characters long")
    else lineReviewError rest

/-- The `category` enumeration of `LineReviewSchema` (`src/server.js:78`). -/
def validCategories : List String :=
  ["Bug/Error", "Performance", "Code Style", "Best Practices", "Security",
   "Functionality", "Debugging", "Refactoring", "Other"]

/-- Mongoose schema validation run by `review.save()`: every line review's
`category` must belong to the enumeration.  (The other schema constraints
are already implied by the handler's own checks at this point.) -/
def storeValidationOk (lrs : List LineReview) : Bool :=
  lrs.all (fun lr => validCategories.contains lr.category)

/-- The unique index on `(codeId, reviewerEmail)` (`src/server.js:126`):
true when an insert would violate it. -/
def uniqueIndexConflict (db : DB) (codeId email : String) : Bool :=
  db.reviews.any (fun r => r.codeId = codeId && r.reviewerEmail = email)

/-- The `POST /api/reviews` handler (`src/server.js:166`), one store step.
Checks in source order: required fields, email regex, snippet existence,
`isCompleted`, `reviewedBy` membership, the per-line loop; then
`review.save()` (schema validation, then the unique index — a violation is
caught as `error.code === 11000` and answered 400 with the same message as
the pre-check; any other save failure answers 500), then the counter
update and conditional completion flag, then the 201 body. -/
def submitReview (db : DB) (inp : ReviewInput) (now : String) : DB × SubmitResult :=
  if requiredOk inp then
    if validEmail inp.reviewerEmail then
      match findById db inp.codeId with
      | none => (db, .notFound "Code not found")
      | some code =>
        if code.isCompleted then (db, .badRequest quotaMsg)
        else if code.reviewedBy.contains inp.reviewerEmail then (db, .badRequest duplicateMsg)
        else
          match lineReviewError inp.lineReviews with
          | some msg => (db, .badRequest msg)
          | none =>
            if storeValidationOk inp.lineReviews then
              if uniqueIndexConflict db inp.codeId inp.reviewerEmail then
                (db, .badRequest duplicateMsg)
              else
                let newReview : ReviewDoc :=
                  { codeId := inp.codeId
                    reviewerEmail := inp.reviewerEmail
                    reviewerName := inp.reviewerName
                    yearsOfExperience := parseIntJS (jsToString inp.yearsOfExperience)
                    position := inp.position
                    generalComment := inp.generalComment
                    lineReviews := inp.lineReviews
                    createdAt := now }
                let newCount := code.reviewCount + 1
                let completed := if code.maxReviews ≤ newCount then true else code.isCompleted
                let code' : Snippet :=
                  { code with
                    reviewCount := newCount
                    reviewedBy := code.reviewedBy ++ [inp.reviewerEmail]
                    isCompleted := completed }
                ({ db with
                    codes := replaceFirst db.codes inp.codeId code'
                    reviews := db.reviews ++ [newReview]
                    nextReviewId := db.nextReviewId + 1 },
                  .success db.nextReviewId newCount code.maxReviews completed)
            else (db, .internalError submitFailedMsg)
    else (db, .badRequest "Invalid email format")
  else (db, .badRequest missingFieldsMsg)

/-- Outcome of `POST /api/codes`. -/
inductive AddResult where
  | created (snip : Snippet)
  | badRequest (error : String)
deriving DecidableEq

/-- The `maxReviews || 3` default (`src/server.js:350` and `:384`): absent
or falsy (0) becomes 3. -/
def resolveMax : Option Int → Int
  | none => 3
  | some v => if v = 0 then 3 else v

/-- The `POST /api/codes` handler (`src/server.js:336`): it destructures
only `title`, `code`, `language`, `maxReviews`; the snippet gets the schema
defaults `reviewCount = 0`, `isCompleted = false`, empty `reviewedBy`. -/
def addCode (db : DB) (inp : CodeInput) : DB × AddResult :=
  if inp.title = "" || inp.code = "" || inp.language = "" then
    (db, .badRequest "Title, code, and language are required")
  else
    let s : Snippet :=
      { id := freshCodeId db.nextCodeId
        title := inp.title
        code := inp.code
        language := inp.language
        maxReviews := resolveMax inp.maxReviews
        reviewCount := 0
        isCompleted := false
        reviewedBy := [] }
    ({ db with codes := db.codes ++ [s], nextCodeId := db.nextCodeId + 1 }, .created s)

/-- Outcome of `POST /api/codes/bulk`. -/
inductive BulkResult where
  | created (addedCount totalProvided : Nat)
  | badRequest (error : String)
deriving DecidableEq

/-- The snippet `insertMany` builds from a bulk entry (`src/server.js:382`):
the spread `...code` keeps any `reviewCount`, `isCompleted`, `reviewedBy`
the entry carries (they are schema fields, so they are not stripped), and
only `maxReviews` is overridden by the `|| 3` default. -/
def bulkSnippet (n : Nat) (inp : CodeInput) : Snippet :=
  { id := freshCodeId n
    title := inp.title
    code := inp.code
    language := inp.language
    maxReviews := resolveMax inp.maxReviews
    reviewCount := inp.reviewCount.getD 0
    isCompleted := inp.isCompleted.getD false
    reviewedBy := inp.reviewedBy.getD [] }

/-- Assign sequential store ids to the filtered bulk entries. -/
def assignIds (n : Nat) : List CodeInput → List Snippet
  | [] => []
  | i :: rest => bulkSnippet n i :: assignIds (n + 1) rest

/-- The `POST /api/codes/bulk` handler (`src/server.js:365`): reject an
empty array, silently filter entries with a falsy `title`/`code`/`language`,
reject if nothing is left, else insert all filtered entries. -/
def bulkAddCodes (db : DB) (inps : List CodeInput) : DB × BulkResult :=
  if inps.isEmpty then (db, .badRequest "Codes array is required")
  else
    let valid := inps.filter (fun i => !(i.title = "") && !(i.code = "") && !(i.language = ""))
    if valid.isEmpty then (db, .badRequest "No valid codes found")
    else
      let newCodes := assignIds db.nextCodeId valid
      ({ db with codes := db.codes ++ newCodes, nextCodeId := db.nextCodeId + valid.length },
        .created newCodes.length inps.length)

/-- Eligibility predicate of the `GET /api/codes/random` query
(`src/server.js:142`): not completed and not yet reviewed by this email
(`$ne` on an array field means no element equals the value). -/
def eligPred (email : String) (c : Snippet) : Bool :=
  !c.isCompleted && !(c.reviewedBy.contains email)

/-- The eligible set the random-selection query returns. -/
def eligibleCodes (db : DB) (email : String) : List Snippet :=
  db.codes.filter (eligPred email)

/-- Outcome of `GET /api/codes/random`. -/
inductive RandomResult where
  | ok (snip : Snippet)
  | notAvailable (msg : String)
  | badRequest (error : String)
deriving DecidableEq

/-- The 404 message of `GET /api/codes/random` (`src/server.js:148`). -/
def noneAvailableMsg : String :=
  "No codes available for review. You may have reviewed all available codes or all codes are completed."

/-- The `GET /api/codes/random` handler (`src/server.js:133`).  The random
draw `Math.floor(Math.random() * length)` is modelled by an arbitrary seed
`k`, reduced modulo the eligible count; the handler only reads the store. -/
def selectRandom (db : DB) (email : String) (k : Nat) : DB × RandomResult :=
  if email = "" then (db, .badRequest "Email parameter is required")
  else
    match eligibleCodes db email with
    | [] => (db, .notAvailable noneAvailableMsg)
    | c :: cs =>
      (db, .ok ((c :: cs).get ⟨k % (cs.length + 1), Nat.mod_lt k (Nat.succ_pos cs.length)⟩))

/-- Outcome of `GET /api/codes/:id/can-review`. -/
inductive CanReviewResult where
  | ok (canReview : Bool) (isCompleted : Bool) (alreadyReviewed : Bool)
      (reviewCount : Int) (maxReviews : Int)
  | badRequest (error : String)
  | notFound (error : String)
deriving DecidableEq

/-- The `GET /api/codes/:id/can-review` handler (`src/server.js:305`). -/
def canReviewHandler (db : DB) (id : String) (email : String) : CanReviewResult :=
  if email = "" then .badRequest "Email parameter is required"
  else
    match findById db id with
    | none => .notFound "Code not found"
    | some code =>
      .ok (!code.isCompleted && !(code.reviewedBy.contains email))
        code.isCompleted (code.reviewedBy.contains email) code.reviewCount code.maxReviews

/-- Model of `.replace(/"/g, String.fromCharCode(34,34))`: every double
quote becomes two. -/
def escQuotes (s : String) : String :=
  String.mk (List.flatten (s.data.map (fun c => if c = '"' then ['"', '"'] else [c])))

/-- Model of `.replace(/\n/g, " ")`: every newline becomes a space. -/
def nlToSpace (s : String) : String :=
  String.mk (s.data.map (fun c => if c = '\n' then ' ' else c))

/-- The `codeContent` value of the export (`src/server.js:437`): quotes
doubled, then newlines replaced by spaces.  Only this field gets the
newline replacement. -/
def codeContentOf (code : String) : String := nlToSpace (escQuotes code)

/-- How the export renders the stored `yearsOfExperience` number inside the
template literal (`NaN` prints as itself). -/
def yoeStr : JSNumVal → String
  | .finite n => toString n
  | .nan => "NaN"
  | .inf false => "Infinity"
  | .inf true => "-Infinity"

/-- The CSV header line (`src/server.js:431`), trailing newline included. -/
def csvHeader : String :=
  "Code Title,Code Language,Code Content,Reviewer Name,Reviewer Email,Years of Experience,Position,General Comment,Line Number,Line Comment,Line Category,Review Date\n"

/-- One export row for a (review, line review) pair (`src/server.js:445`).
Quotes wrap every field except `Years of Experience` and `Line Number`,
which the template interpolates bare; quote-doubling applies only to the
code content, the general comment and the line comment. -/
def lineRowOf (c : Snippet) (r : ReviewDoc) (lr : LineReview) : String :=
  "\"" ++ c.title ++ "\",\"" ++ c.language ++ "\",\"" ++ codeContentOf c.code ++
    "\",\"" ++ r.reviewerName ++ "\",\"" ++ r.reviewerEmail ++ "\"," ++
    yoeStr r.yearsOfExperience ++ ",\"" ++ r.position ++ "\",\"" ++
    escQuotes (r.generalComment.getD "") ++ "\"," ++ toString lr.lineNumber ++
    ",\"" ++ escQuotes lr.comment ++ "\",\"" ++ lr.category ++ "\",\"" ++
    r.createdAt ++ "\""

/-- The single export row of a review without line reviews
(`src/server.js:459`): the three line fields are quoted empties. -/
def noLineRowOf (c : Snippet) (r : ReviewDoc) : String :=
  "\"" ++ c.title ++ "\",\"" ++ c.language ++ "\",\"" ++ codeContentOf c.code ++
    "\",\"" ++ r.reviewerName ++ "\",\"" ++ r.reviewerEmail ++ "\"," ++
    yoeStr r.yearsOfExperience ++ ",\"" ++ r.position ++ "\",\"" ++
    escQuotes (r.generalComment.getD "") ++ "\",\"\",\"\",\"\",\"" ++
    r.createdAt ++ "\""

/-- The rows one review contributes (`src/server.js:442`): one per line
review, or exactly one with empty line fields. -/
def rowsForReview (c : Snippet) (r : ReviewDoc) : List String :=
  if r.lineReviews.isEmpty then [noLineRowOf c r]
  else r.lineReviews.map (lineRowOf c r)

/-- The `reviews.forEach` accumulation of `csvRows`, with
`populate("codeId")` resolving each review's snippet; a dangling reference
makes the handler throw (modelled as `none`, the 500 path).  The handler
sorts reviews newest first; the sort only permutes whole records and no
claim here depends on record order, so rows are produced in store order. -/
def csvRowsAux (db : DB) : List ReviewDoc → Option (List String)
  | [] => some []
  | r :: rest =>
    match findById db r.codeId, csvRowsAux db rest with
    | some c, some tail => some (rowsForReview c r ++ tail)
    | _, _ => none

/-- All data rows of the export. -/
def csvRowsDB (db : DB) : Option (List String) := csvRowsAux db db.reviews

/-- The full body of `GET /api/reviews/export` (`src/server.js:471`):
header plus newline-joined rows. -/
def exportCsv (db : DB) : Option String :=
  (csvRowsDB db).map (fun rows => csvHeader ++ String.intercalate "\n" rows)

/-- Stores reachable from the empty store through the exposed mutating or
snippet-creating operations, with arbitrary request bodies. -/
inductive Reachable : DB → Prop where
  | init : Reachable emptyDB
  | add (db : DB) (inp : CodeInput) : Reachable db → Reachable (addCode db inp).1
  | bulk (db : DB) (inps : List CodeInput) : Reachable db → Reachable (bulkAddCodes db inps).1
  | review (db : DB) (inp : ReviewInput) (now : String) :
      Reachable db → Reachable (submitReview db inp now).1

/-- A snippet-creation input whose resolved quota is at least 1 (rules out
`maxReviews ≤ 0`, under which a fresh snippet with `reviewCount = 0` would
already satisfy `reviewCount ≥ maxReviews` while `isCompleted` defaults to
false). -/
def goodQuota (i : CodeInput) : Prop := 1 ≤ resolveMax i.maxReviews

/-- A bulk entry that does not smuggle counter state through the spread:
no client-supplied `reviewCount`, `isCompleted` or `reviewedBy`. -/
def noCounterOverride (i : CodeInput) : Prop :=
  i.reviewCount = none ∧ i.isCompleted = none ∧ i.reviewedBy = none

/-- Stores reachable when snippet creation is well-behaved: single adds
resolve to a positive quota, bulk entries additionally carry no counter
overrides; review submissions are unrestricted. -/
inductive ReachableGood : DB → Prop where
  | init : ReachableGood emptyDB
  | add (db : DB) (inp : CodeInput) : goodQuota inp → ReachableGood db →
      ReachableGood (addCode db inp).1
  | bulk (db : DB) (inps : List CodeInput) :
      (∀ i ∈ inps, goodQuota i ∧ noCounterOverride i) → ReachableGood db →
      ReachableGood (bulkAddCodes db inps).1
  | review (db : DB) (inp : ReviewInput) (now : String) :
      ReachableGood db → ReachableGood (submitReview db inp now).1

/-- A record (CSV data row) spanning one physical line means no embedded
newline character. -/
abbrev noNL (s : String) : Prop := '\n' ∉ s.data

/-- Scenario constants.  A snippet created with `maxReviews = 1`. -/
def cin1 : CodeInput :=
  { title := "T", code := "print(1)", language := "js",
    maxReviews := some 1, reviewCount := none, isCompleted := none, reviewedBy := none }

/-- The store holding only that snippet (id `"c0"`). -/
def db1 : DB := (addCode emptyDB cin1).1

/-- A valid line review: comment of 27 characters, category from the
enumeration. -/
def lrGood : LineReview :=
  { lineNumber := 1, comment := "this comment is long enough", category := "Bug/Error" }

/-- Reviewer X's valid submission for snippet `"c0"`. -/
def inpX : ReviewInput :=
  { codeId := "c0", reviewerEmail := "x@a.com", reviewerName := "X",
    yearsOfExperience := .jnum false [5] [], position := "Dev",
    generalComment := none, lineReviews := [lrGood] }

/-- X's first submission against `db1`. -/
def sub1 : DB × SubmitResult := submitReview db1 inpX "2024-01-01T00:00:00.000Z"

/-- The store after X's accepted review. -/
def db2 : DB := sub1.1

/-- X's second submission of the same review. -/
def sub2 : DB × SubmitResult := submitReview db2 inpX "2024-01-02T00:00:00.000Z"

/-- Reviewer Y's valid submission after the snippet completed. -/
def inpY : ReviewInput := { inpX with reviewerEmail := "y@a.com", reviewerName := "Y" }

/-- Y's submission against the completed snippet. -/
def subY : DB × SubmitResult := submitReview db2 inpY "2024-01-03T00:00:00.000Z"

/-- X's submission with `yearsOfExperience` equal to the number 0 and every
other field valid. -/
def inpYoeZero : ReviewInput := { inpX with yearsOfExperience := .jnum false [0] [] }

/-- X's submission whose line review carries a non-empty category outside
the enumeration. -/
def inpBadCat : ReviewInput :=
  { inpX with lineReviews := [{ lrGood with category := "Nonsense" }] }

/-- A mid-race store: the pre-check state (`reviewedBy` empty) has not yet
caught up with a review document already inserted for (`"c0"`, X). -/
def dbRace : DB :=
  { db1 with reviews :=
      [{ codeId := "c0", reviewerEmail := "x@a.com", reviewerName := "X",
         yearsOfExperience := .finite 5, position := "Dev", generalComment := none,
         lineReviews := [lrGood], createdAt := "2024-01-01T00:00:00.000Z" }] }

/-- A bulk entry that smuggles `isCompleted = true` through the spread. -/
def cinOverride : CodeInput :=
  { title := "t", code := "c", language := "js",
    maxReviews := none, reviewCount := none, isCompleted := some true, reviewedBy := none }

/-- The store after bulk-adding that entry. -/
def dbOverride : DB := (bulkAddCodes emptyDB [cinOverride]).1

/-- The snippet the bulk add with the override produces. -/
def snipOverride : Snippet :=
  { id := "c0", title := "t", code := "c", language := "js",
    maxReviews := 3, reviewCount := 0, isCompleted := true, reviewedBy := [] }

/-- A snippet whose code text holds a newline and a double quote. -/
def snipCsv : Snippet :=
  { id := "c0", title := "a\"b", code := "line1\nline2\"x", language := "js",
    maxReviews := 3, reviewCount := 1, isCompleted := false, reviewedBy := ["x@a.com"] }

/-- A stored review without line reviews whose general comment embeds a
newline. -/
def revCsv : ReviewDoc :=
  { codeId := "c0", reviewerEmail := "x@a.com", reviewerName := "X",
    yearsOfExperience := .finite 7, position := "Dev", generalComment := some "bad\ncomment",
    lineReviews := [], createdAt := "2024-01-01T00:00:00.000Z" }

/-- A store whose single review exercises the export's escaping. -/
def dbCsv : DB := { codes := [snipCsv], reviews := [revCsv], nextCodeId := 1, nextReviewId := 1 }

/-- The row the export produces for `revCsv` (newline kept in the general
comment, quote in the title not doubled, `7` bare). -/
def rowCsv : String := noLineRowOf snipCsv revCsv

/-- A second stored review, with two line reviews, for the row count. -/
def revTwoLines : ReviewDoc :=
  { codeId := "c0", reviewerEmail := "y@a.com", reviewerName := "Y",
    yearsOfExperience := .finite 3, position := "QA", generalComment := none,
    lineReviews := [lrGood, { lrGood with lineNumber := 2 }],
    createdAt := "2024-01-02T00:00:00.000Z" }

/-- A store with one zero-line-review review and one two-line-review
review: the export must produce max(1,0) + max(1,2) = 3 data rows. -/
def dbCsv2 : DB :=
  { codes := [snipCsv], reviews := [revCsv, revTwoLines], nextCodeId := 1, nextReviewId := 2 }

theorem fracVal_nonneg (ds : List Nat) : 0 ≤ fracVal ds := by
  induction ds with
  | nil => simp [fracVal]
  | cons d t ih =>
    simp only [fracVal, List.foldr_cons] at ih ⊢
    positivity

theorem fracVal_eq_zero_iff (ds : List Nat) : fracVal ds = 0 ↔ ∀ d ∈ ds, d = 0 := by
  induction ds with
  | nil => simp [fracVal]
  | cons d t ih =>
    have hcons : fracVal (d :: t) = ((d : ℚ) + fracVal t) / 10 := rfl
    rw [hcons, div_eq_zero_iff]
    have h2 : (10 : ℚ) ≠ 0 := by norm_num
    have h3 : (d : ℚ) + fracVal t = 0 ↔ (d : ℚ) = 0 ∧ fracVal t = 0 :=
      add_eq_zero_iff_of_nonneg (by positivity) (fracVal_nonneg t)
    simp only [h2, or_false, h3, List.mem_cons, ih, Nat.cast_eq_zero]
    constructor
    · rintro ⟨h4, h5⟩ x hx
      rcases hx with rfl | hx
      · exact h4
      · exact h5 x hx
    · intro h4
      exact ⟨h4 d (Or.inl rfl), fun x hx => h4 x (Or.inr hx)⟩

theorem natOfDigits_eq_zero_iff (ds : List Nat) : natOfDigits ds = 0 ↔ ∀ d ∈ ds, d = 0 := by
  have key : ∀ (l : List Nat) (a : Nat),
      (l.foldl (fun x d => x * 10 + d) a = 0 ↔ a = 0 ∧ ∀ d ∈ l, d = 0) := by
    intro l
    induction l with
    | nil => intro a; simp
    | cons d t ih =>
      intro a
      simp only [List.foldl_cons, List.mem_cons, ih]
      constructor
      · rintro ⟨h1, h2⟩
        refine ⟨by omega, fun x hx => ?_⟩
        rcases hx with rfl | hx
        · omega
        · exact h2 x hx
      · rintro ⟨rfl, h2⟩
        exact ⟨by have := h2 d (Or.inl rfl); omega, fun x hx => h2 x (Or.inr hx)⟩
  simpa [natOfDigits] using key ds 0

/-- The snippet stored in `db1`: fresh, quota 1. -/
def snip1 : Snippet :=
  { id := "c0", title := "T", code := "print(1)", language := "js",
    maxReviews := 1, reviewCount := 0, isCompleted := false, reviewedBy := [] }

/-- The snippet stored in `db2`: quota reached after X's single review. -/
def snip2 : Snippet :=
  { id := "c0", title := "T", code := "print(1)", language := "js",
    maxReviews := 1, reviewCount := 1, isCompleted := true, reviewedBy := ["x@a.com"] }

/-- A stored review whose text fields carry no newline, for exercising the
escaping theorem. -/
def revPlain : ReviewDoc :=
  { codeId := "c0", reviewerEmail := "x@a.com", reviewerName := "X",
    yearsOfExperience := .finite 7, position := "Dev", generalComment := some "fine \"quoted\" text",
    lineReviews := [lrGood], createdAt := "2024-01-01T00:00:00.000Z" }

theorem jsTruthy_jnum_eq_false_iff (neg : Bool) (ip fr : List Nat) :
    jsTruthy (.jnum neg ip fr) = false ↔ jnumValue neg ip fr = 0 := by
  have hsign : (if neg then (-1 : ℚ) else 1) ≠ 0 := by cases neg <;> norm_num
  have hA : jnumValue neg ip fr = 0 ↔ (natOfDigits ip : ℚ) + fracVal fr = 0 := by
    unfold jnumValue
    constructor
    · intro h
      rcases mul_eq_zero.mp h with h | h
      · exact absurd h hsign
      · exact h
    · intro h
      rw [h, mul_zero]
  have hB : (natOfDigits ip : ℚ) + fracVal fr = 0 ↔ natOfDigits ip = 0 ∧ fracVal fr = 0 := by
    rw [add_eq_zero_iff_of_nonneg (by positivity) (fracVal_nonneg fr)]
    simp [Nat.cast_eq_zero]
  have hL : jsTruthy (.jnum neg ip fr) = false ↔ ((∀ d ∈ ip, d = 0) ∧ (∀ d ∈ fr, d = 0)) := by
    simp [jsTruthy]
  rw [hL, hA, hB, natOfDigits_eq_zero_iff, fracVal_eq_zero_iff]

theorem replaceFirst_mem {cs : List Snippet} {id : String} {u x : Snippet}
    (hx : x ∈ replaceFirst cs id u) : x ∈ cs ∨ x = u := by
  induction cs with
  | nil => simp [replaceFirst] at hx
  | cons c t ih =>
    by_cases h : c.id = id
    · simp only [replaceFirst, if_pos h, List.mem_cons] at hx
      rcases hx with h1 | h1
      · right; exact h1
      · left; exact List.mem_cons_of_mem _ h1
    · simp only [replaceFirst, if_neg h, List.mem_cons] at hx
      rcases hx with h1 | h1
      · left; exact h1 ▸ List.mem_cons_self c t
      · rcases ih h1 with h2 | h2
        · left; exact List.mem_cons_of_mem _ h2
        · right; exact h2

theorem replaceFirst_get? {cs : List Snippet} {id : String} {u : Snippet} :
    ∀ {i : Nat} {s s' : Snippet}, cs.get? i = some s →
      (replaceFirst cs id u).get? i = some s' →
      s' = s ∨ (cs.find? (fun c => c.id = id) = some s ∧ s' = u) := by
  induction cs with
  | nil => intro i s s' hs; simp at hs
  | cons c t ih =>
    intro i s s' hs hs'
    by_cases h : c.id = id
    · cases i with
      | zero =>
        simp only [replaceFirst, if_pos h, List.get?_cons_zero, Option.some_inj] at hs hs'
        right
        rw [List.find?_cons_of_pos _ (by simp [h]), hs]
        exact ⟨rfl, hs'.symm⟩
      | succ j =>
        simp only [replaceFirst, if_pos h, List.get?_cons_succ] at hs hs'
        left
        rw [hs] at hs'
        exact (Option.some_inj.mp hs').symm
    · cases i with
      | zero =>
        simp only [replaceFirst, if_neg h, List.get?_cons_zero, Option.some_inj] at hs hs'
        left
        rw [← hs, ← hs']
      | succ j =>
        simp only [replaceFirst, if_neg h, List.get?_cons_succ] at hs hs'
        rcases ih hs hs' with h1 | h1
        · left; exact h1
        · right
          rw [List.find?_cons_of_neg _ (by simp [h])]
          exact h1

theorem mem_assignIds {x : Snippet} :
    ∀ {n : Nat} {l : List CodeInput}, x ∈ assignIds n l → ∃ i ∈ l, ∃ m, x = bulkSnippet m i := by
  intro n l
  induction l generalizing n with
  | nil => intro hx; simp [assignIds] at hx
  | cons i t ih =>
    intro hx
    simp only [assignIds, List.mem_cons] at hx
    rcases hx with h | h
    · exact ⟨i, List.mem_cons_self i t, n, h⟩
    · rcases ih h with ⟨j, hj, m, hm⟩
      exact ⟨j, List.mem_cons_of_mem _ hj, m, hm⟩

theorem addCode_codes_shape (db : DB) (inp : CodeInput) :
    (addCode db inp).1.codes = db.codes ∨
      (addCode db inp).1.codes = db.codes ++
        [{ id := freshCodeId db.nextCodeId, title := inp.title, code := inp.code,
           language := inp.language, maxReviews := resolveMax inp.maxReviews,
           reviewCount := 0, isCompleted := false, reviewedBy := [] }] := by
  unfold addCode
  split
  · left; rfl
  · right; rfl

theorem bulkAddCodes_codes_shape (db : DB) (inps : List CodeInput) :
    (bulkAddCodes db inps).1.codes = db.codes ∨
      (bulkAddCodes db inps).1.codes = db.codes ++
        assignIds db.nextCodeId
          (inps.filter (fun i => !(i.title = "") && !(i.code = "") && !(i.language = ""))) := by
  unfold bulkAddCodes
  split
  · left; rfl
  · dsimp only
    split
    · left; rfl
    · right; rfl

theorem submitReview_codes_shape (db : DB) (inp : ReviewInput) (now : String) :
    (submitReview db inp now).1.codes = db.codes ∨
      ∃ code : Snippet, findById db inp.codeId = some code ∧ code.isCompleted = false ∧
        (submitReview db inp now).1.codes =
          replaceFirst db.codes inp.codeId
            { code with
              reviewCount := code.reviewCount + 1,
              reviewedBy := code.reviewedBy ++ [inp.reviewerEmail],
              isCompleted :=
                if code.maxReviews ≤ code.reviewCount + 1 then true else code.isCompleted } := by
  unfold submitReview
  split
  case isFalse => left; rfl
  case isTrue =>
    split
    case isFalse => left; rfl
    case isTrue =>
      split
      case h_1 => left; rfl
      case h_2 code hfind =>
        split
        case isTrue => left; rfl
        case isFalse hcomp =>
          split
          case isTrue => left; rfl
          case isFalse =>
            split
            case h_1 => left; rfl
            case h_2 =>
              split
              case isFalse => left; rfl
              case isTrue =>
                split
                case isTrue => left; rfl
                case isFalse =>
                  right
                  exact ⟨code, hfind, by simpa using hcomp, rfl⟩

theorem addCode_isCompleted_mono (db : DB) (inp : CodeInput) {i : Nat} {s s' : Snippet}
    (hs : db.codes.get? i = some s) (hs' : (addCode db inp).1.codes.get? i = some s')
    (hc : s.isCompleted = true) : s'.isCompleted = true := by
  have hlen : i < db.codes.length := List.get?_eq_some.mp hs |>.1
  rcases addCode_codes_shape db inp with h | h
  · rw [h, hs] at hs'
    cases hs'
    exact hc
  · rw [h, List.get?_append hlen, hs] at hs'
    cases hs'
    exact hc

theorem bulkAddCodes_isCompleted_mono (db : DB) (inps : List CodeInput) {i : Nat} {s s' : Snippet}
    (hs : db.codes.get? i = some s) (hs' : (bulkAddCodes db inps).1.codes.get? i = some s')
    (hc : s.isCompleted = true) : s'.isCompleted = true := by
  have hlen : i < db.codes.length := List.get?_eq_some.mp hs |>.1
  rcases bulkAddCodes_codes_shape db inps with h | h
  · rw [h, hs] at hs'
    cases hs'
    exact hc
  · rw [h, List.get?_append hlen, hs] at hs'
    cases hs'
    exact hc

theorem submitReview_isCompleted_mono (db : DB) (inp : ReviewInput) (now : String)
    {i : Nat} {s s' : Snippet}
    (hs : db.codes.get? i = some s) (hs' : (submitReview db inp now).1.codes.get? i = some s')
    (hc : s.isCompleted = true) : s'.isCompleted = true := by
  rcases submitReview_codes_shape db inp now with h | ⟨code, hfind, hcomp, h⟩
  · rw [h, hs] at hs'
    cases hs'
    exact hc
  · rw [h] at hs'
    rcases replaceFirst_get? hs hs' with h1 | ⟨h1, h2⟩
    · rw [h1]; exact hc
    · exfalso
      unfold findById at hfind
      rw [h1] at hfind
      cases hfind
      rw [hcomp] at hc
      exact Bool.false_ne_true hc

theorem reachableGood_inv {db : DB} (h : ReachableGood db) :
    ∀ s ∈ db.codes, (s.isCompleted = true ↔ s.maxReviews ≤ s.reviewCount) := by
  induction h with
  | init => intro s hs; simp [emptyDB] at hs
  | add db inp hq hdb ih =>
    intro s hs
    rcases addCode_codes_shape db inp with h | h
    · rw [h] at hs; exact ih s hs
    · rw [h] at hs
      rcases List.mem_append.mp hs with h1 | h1
      · exact ih s h1
      · simp only [List.mem_singleton] at h1
        subst h1
        unfold goodQuota at hq
        constructor
        · intro hh; simp at hh
        · intro hh; exfalso; simp only at hh; omega
  | bulk db inps hgood hdb ih =>
    intro s hs
    rcases bulkAddCodes_codes_shape db inps with h | h
    · rw [h] at hs; exact ih s hs
    · rw [h] at hs
      rcases List.mem_append.mp hs with h1 | h1
      · exact ih s h1
      · rcases mem_assignIds h1 with ⟨i, hi, m, hm⟩
        have hi' : i ∈ inps := List.mem_of_mem_filter hi
        rcases hgood i hi' with ⟨hq, hov1, hov2, hov3⟩
        subst hm
        unfold goodQuota at hq
        simp only [bulkSnippet, hov1, hov2, Option.getD_none]
        constructor
        · intro hh; simp at hh
        · intro hh; exfalso; omega
  | review db inp now hdb ih =>
    intro s hs
    rcases submitReview_codes_shape db inp now with h | ⟨code, hfind, hcomp, h⟩
    · rw [h] at hs; exact ih s hs
    · rw [h] at hs
      rcases replaceFirst_mem hs with h1 | h1
      · exact ih s h1
      · subst h1
        by_cases hle : code.maxReviews ≤ code.reviewCount + 1
        · simp only [if_pos hle]
          exact ⟨fun _ => hle, fun _ => trivial⟩
        · simp only [if_neg hle, hcomp]
          constructor
          · intro hh; exact absurd hh (by simp)
          · intro hh; exact absurd hh hle

theorem noNL_append {a b : String} (ha : noNL a) (hb : noNL b) : noNL (a ++ b) := by
  unfold noNL at ha hb ⊢
  rw [String.data_append, List.mem_append]
  rintro (h | h)
  · exact ha h
  · exact hb h

theorem noNL_nlToSpace (s : String) : noNL (nlToSpace s) := by
  unfold noNL nlToSpace
  intro h
  rcases List.mem_map.mp h with ⟨a, _, hfa⟩
  by_cases ha : a = '\n'
  · rw [if_pos ha] at hfa
    exact absurd hfa (by decide)
  · rw [if_neg ha] at hfa
    exact ha hfa

theorem noNL_escQuotes {s : String} (hs : noNL s) : noNL (escQuotes s) := by
  unfold noNL at hs ⊢
  unfold escQuotes
  intro h
  rcases List.mem_flatten.mp h with ⟨l, hl, hc⟩
  rcases List.mem_map.mp hl with ⟨a, ha, rfl⟩
  by_cases hq : a = '"'
  · rw [if_pos hq] at hc
    simp at hc
  · rw [if_neg hq] at hc
    simp only [List.mem_singleton] at hc
    exact hs (hc ▸ ha)

theorem noNL_codeContentOf (code : String) : noNL (codeContentOf code) := by
  unfold codeContentOf
  exact noNL_nlToSpace _

theorem rowsForReview_length (c : Snippet) (r : ReviewDoc) :
    (rowsForReview c r).length = max 1 r.lineReviews.length := by
  unfold rowsForReview
  split
  · next h =>
    rw [List.isEmpty_iff] at h
    simp [h]
  · next h =>
    rw [List.isEmpty_iff, ← List.length_eq_zero] at h
    simp only [List.length_map, List.length_singleton]
    omega

theorem csvRowsAux_length (db : DB) :
    ∀ (rs : List ReviewDoc) (rows : List String), csvRowsAux db rs = some rows →
      rows.length = (rs.map (fun r => max 1 r.lineReviews.length)).sum := by
  intro rs
  induction rs with
  | nil =>
    intro rows h
    simp only [csvRowsAux, Option.some_inj] at h
    subst h
    simp
  | cons r t ih =>
    intro rows h
    unfold csvRowsAux at h
    cases hf : findById db r.codeId with
    | none => rw [hf] at h; simp at h
    | some c =>
      rw [hf] at h
      cases ht : csvRowsAux db t with
      | none => rw [ht] at h; simp at h
      | some tail =>
        rw [ht] at h
        simp only [Option.some_inj] at h
        subst h
        simp [List.length_append, rowsForReview_length, ih tail ht]

/-- C1 counterexample: in Scenario A (snippet quota 1, X's review accepted),
reviewer X's second submission is rejected with the quota-exceeded message,
not the duplicate-review message the claim asserts, because the handler
checks `isCompleted` (`src/server.js:206`) before `reviewedBy`
(`src/server.js:213`). -/
theorem claim1_counterexample :
    sub2.2 = SubmitResult.badRequest quotaMsg ∧
      sub2.2 ≠ SubmitResult.badRequest duplicateMsg :=
  ⟨by decide, by decide⟩

/-- C1 (corrected): with `maxReviews = 1`, reviewer X's valid submission is
accepted with `reviewCount = 1` and `isCompleted = true`; X's second
submission is then rejected as quota exceeded (the completed check precedes
the duplicate check), and reviewer Y's submission is likewise rejected as
quota exceeded. -/
theorem claim1_scenarioA :
    sub1.2 = SubmitResult.success 0 1 1 true ∧
      sub2.2 = SubmitResult.badRequest quotaMsg ∧
      subY.2 = SubmitResult.badRequest quotaMsg :=
  ⟨by decide, by decide, by decide⟩

/-- C2 counterexample: bulk add spreads the request entry into the inserted
document, so an entry carrying `isCompleted = true` creates a reachable
snippet with `isCompleted = true` while `reviewCount = 0 < 3 = maxReviews`,
violating the claimed iff. -/
theorem claim2_counterexample :
    Reachable dbOverride ∧ dbOverride.codes = [snipOverride] ∧
      snipOverride.isCompleted = true ∧ ¬ (snipOverride.maxReviews ≤ snipOverride.reviewCount) :=
  ⟨Reachable.bulk emptyDB [cinOverride] Reachable.init, by decide, by decide, by decide⟩

/-- C2 (corrected): when snippet creation is well behaved — single adds
resolve to a quota of at least 1, bulk entries also carry no
`reviewCount`/`isCompleted`/`reviewedBy` overrides — every reachable
snippet satisfies `isCompleted = true ↔ reviewCount ≥ maxReviews`; and
under every exposed operation on any store, a snippet whose `isCompleted`
is true keeps it true (positions are preserved: adds append, submission
replaces in place). -/
theorem claim2_completion_invariant :
    (∀ db : DB, ReachableGood db → ∀ s ∈ db.codes,
      (s.isCompleted = true ↔ s.maxReviews ≤ s.reviewCount)) ∧
    (∀ (db : DB) (inp : CodeInput) (i : Nat) (s s' : Snippet),
      db.codes.get? i = some s → (addCode db inp).1.codes.get? i = some s' →
      s.isCompleted = true → s'.isCompleted = true) ∧
    (∀ (db : DB) (inps : List CodeInput) (i : Nat) (s s' : Snippet),
      db.codes.get? i = some s → (bulkAddCodes db inps).1.codes.get? i = some s' →
      s.isCompleted = true → s'.isCompleted = true) ∧
    (∀ (db : DB) (inp : ReviewInput) (now : String) (i : Nat) (s s' : Snippet),
      db.codes.get? i = some s → (submitReview db inp now).1.codes.get? i = some s' →
      s.isCompleted = true → s'.isCompleted = true) :=
  ⟨fun _ h => reachableGood_inv h,
   fun db inp _ _ _ hs hs' hc => addCode_isCompleted_mono db inp hs hs' hc,
   fun db inps _ _ _ hs hs' hc => bulkAddCodes_isCompleted_mono db inps hs hs' hc,
   fun db inp now _ _ _ hs hs' hc => submitReview_isCompleted_mono db inp now hs hs' hc⟩

/-- C2 witness: the store reached by adding a quota-1 snippet and accepting
X's review is well-behaved-reachable, and its snippet (completed, count 1,
quota 1) satisfies the iff. -/
theorem claim2_witness :
    snip2.isCompleted = true ↔ snip2.maxReviews ≤ snip2.reviewCount :=
  claim2_completion_invariant.1 db2
    (ReachableGood.review db1 inpX "2024-01-01T00:00:00.000Z"
      (ReachableGood.add emptyDB cin1 (by unfold goodQuota; decide) ReachableGood.init))
    snip2 (by decide)

/-- C3 (code bug): a submission whose `yearsOfExperience` is the number 0,
all other fields valid, is rejected by the required-fields check with the
missing-fields message — `!yearsOfExperience` treats 0 as absent — while
the identical submission with `yearsOfExperience = 5` is accepted.  The
spec's step 1 requires only presence and its data model allows any
non-negative integer, so the claim is right and the code's truthiness
check is the slip. -/
theorem claim3_yoe_zero_rejected :
    (submitReview db1 inpYoeZero "2024-01-01T00:00:00.000Z").2 =
        SubmitResult.badRequest missingFieldsMsg ∧
      (submitReview db1 inpX "2024-01-01T00:00:00.000Z").2 = SubmitResult.success 0 1 1 true :=
  ⟨by decide, by decide⟩

/-- C4 counterexample: a submission whose line review carries the non-empty
category "Nonsense" (all handler checks passing) is answered with the
generic 500 internal error, not a 400 validation error naming the line:
the handler never checks the enumeration; `review.save()` raises a schema
validation error that the catch block does not translate. -/
theorem claim4_counterexample :
    (submitReview db1 inpBadCat "2024-01-01T00:00:00.000Z").2 =
        SubmitResult.internalError submitFailedMsg ∧
      (submitReview db1 inpBadCat "2024-01-01T00:00:00.000Z").1 = db1 :=
  ⟨by decide, by decide⟩

/-- C4 (corrected): whenever all handler checks pass and some line review's
category falls outside the enumeration (store validation fails), the
submission is answered with the 500 internal error `"Failed to submit
review"` and nothing is written; the offending line number is not
reported.  The enumeration is enforced only by the store schema, not by
validation step 6. -/
theorem claim4_bad_category_internal (db : DB) (inp : ReviewInput) (now : String)
    (code : Snippet)
    (h1 : requiredOk inp = true) (h2 : validEmail inp.reviewerEmail = true)
    (h3 : findById db inp.codeId = some code) (h4 : code.isCompleted = false)
    (h5 : code.reviewedBy.contains inp.reviewerEmail = false)
    (h6 : lineReviewError inp.lineReviews = none)
    (h7 : storeValidationOk inp.lineReviews = false) :
    (submitReview db inp now).2 = SubmitResult.internalError submitFailedMsg ∧
      (submitReview db inp now).1 = db := by
  have h5m : inp.reviewerEmail ∉ code.reviewedBy := by simpa using h5
  unfold submitReview
  simp [h1, h2, h3, h4, h5m, h6, h7]

/-- C4 witness: the bad-category submission against the fresh quota-1 store
satisfies every hypothesis and is answered with the internal error. -/
theorem claim4_witness :
    (submitReview db1 inpBadCat "t").2 = SubmitResult.internalError submitFailedMsg ∧
      (submitReview db1 inpBadCat "t").1 = db1 :=
  claim4_bad_category_internal db1 inpBadCat "t" snip1 (by decide) (by decide) (by decide)
    (by decide) (by decide) (by decide) (by decide)

/-- C5 counterexample: the single export record of `dbCsv` keeps the raw
newline of the general comment (so it spans two physical lines), leaves the
quote inside the title undoubled, and emits the Years of Experience value
`7` unquoted — against all three parts of the claim. -/
theorem claim5_counterexample :
    csvRowsDB dbCsv = some [rowCsv] ∧
      rowCsv = "\"a\"b\",\"js\",\"line1 line2\"\"x\",\"X\",\"x@a.com\",7,\"Dev\",\"bad\ncomment\",\"\",\"\",\"\",\"2024-01-01T00:00:00.000Z\"" ∧
      rowCsv.data.count '\n' = 1 :=
  ⟨rfl, rfl, by decide⟩

/-- C5 (corrected): the export quotes the text fields but emits Years of
Experience and Line Number bare; it doubles embedded quotes only in the
code content, the general comment and the line comment; and it replaces
newlines with a space only in the code content — so a record occupies one
physical line exactly when the remaining rendered fields carry no embedded
newline, which this theorem states for both row shapes. -/
theorem claim5_row_single_line (c : Snippet) (r : ReviewDoc) (lr : LineReview)
    (h1 : noNL c.title) (h2 : noNL c.language) (h3 : noNL r.reviewerName)
    (h4 : noNL r.reviewerEmail) (h5 : noNL (yoeStr r.yearsOfExperience))
    (h6 : noNL r.position) (h7 : noNL (r.generalComment.getD ""))
    (h8 : noNL (toString lr.lineNumber)) (h9 : noNL lr.comment) (h10 : noNL lr.category)
    (h11 : noNL r.createdAt) :
    noNL (lineRowOf c r lr) ∧ noNL (noLineRowOf c r) := by
  constructor
  · unfold lineRowOf
    repeat' apply noNL_append
    all_goals first
      | exact h1 | exact h2 | exact h3 | exact h4 | exact h5 | exact h6
      | exact h8 | exact h10 | exact h11
      | exact noNL_codeContentOf _
      | exact noNL_escQuotes h7
      | exact noNL_escQuotes h9
      | decide
  · unfold noLineRowOf
    repeat' apply noNL_append
    all_goals first
      | exact h1 | exact h2 | exact h3 | exact h4 | exact h5 | exact h6 | exact h11
      | exact noNL_codeContentOf _
      | exact noNL_escQuotes h7
      | decide

/-- C5 witness: a review whose text fields are newline-free (the snippet
code itself containing a newline and a quote) yields one-line records of
both shapes. -/
theorem claim5_witness : noNL (lineRowOf snipCsv revPlain lrGood) ∧ noNL (noLineRowOf snipCsv revPlain) :=
  claim5_row_single_line snipCsv revPlain lrGood (by decide) (by decide) (by decide) (by decide)
    (by decide) (by decide) (by decide) (by decide) (by decide) (by decide) (by decide)

/-- C6 (confirmed): whenever the export resolves (every stored review's
snippet reference exists), the number of data rows equals the sum over
reviews of max(1, number of line reviews) — a review without line reviews
contributes exactly one row — and the response body is the header followed
by the newline-joined rows, so the header is present even with zero
reviews. -/
theorem claim6_export_row_count (db : DB) (rows : List String)
    (h : csvRowsDB db = some rows) :
    rows.length = (db.reviews.map (fun r => max 1 r.lineReviews.length)).sum ∧
      exportCsv db = some (csvHeader ++ String.intercalate "\n" rows) := by
  constructor
  · exact csvRowsAux_length db db.reviews rows h
  · unfold exportCsv
    rw [h]
    rfl

/-- C6 witness: the store with one zero-line-review review and one
two-line-review review produces max(1,0) + max(1,2) = 3 data rows, and its
export body starts with the header. -/
theorem claim6_witness :
    ((csvRowsDB dbCsv2).getD []).length =
        (dbCsv2.reviews.map (fun r => max 1 r.lineReviews.length)).sum ∧
      exportCsv dbCsv2 =
        some (csvHeader ++ String.intercalate "\n" ((csvRowsDB dbCsv2).getD [])) :=
  claim6_export_row_count dbCsv2 ((csvRowsDB dbCsv2).getD []) (by rfl)

/-- C7 (confirmed): with an email present, random snippet selection leaves
the store unchanged; any snippet it returns is not completed, not already
reviewed by that email, and belongs to the eligible set the query computes;
and it reports the 404 not-available message exactly when the eligible set
is empty. -/
theorem claim7_selection_sound (db : DB) (email : String) (k : Nat) (he : email ≠ "") :
    (selectRandom db email k).1 = db ∧
      (∀ s : Snippet, (selectRandom db email k).2 = RandomResult.ok s →
        s.isCompleted = false ∧ s.reviewedBy.contains email = false ∧
          s ∈ eligibleCodes db email) ∧
      ((selectRandom db email k).2 = RandomResult.notAvailable noneAvailableMsg ↔
        eligibleCodes db email = []) := by
  unfold selectRandom
  rw [if_neg he]
  cases helig : eligibleCodes db email with
  | nil =>
    refine ⟨rfl, ?_, by simp⟩
    intro s hs
    simp at hs
  | cons c cs =>
    refine ⟨rfl, ?_, by simp⟩
    intro s hs
    simp only [RandomResult.ok.injEq] at hs
    have hmem : s ∈ c :: cs := by
      rw [← hs]
      exact List.get_mem _ _ _
    have hmem2 : s ∈ eligibleCodes db email := by
      rw [helig]
      exact hmem
    have hpred : eligPred email s = true := (List.mem_filter.mp hmem2).2
    have hsplit := hpred
    unfold eligPred at hsplit
    rw [Bool.and_eq_true, Bool.not_eq_true', Bool.not_eq_true'] at hsplit
    exact ⟨hsplit.1, hsplit.2, hmem⟩

/-- C7 witness: for a fresh store with one snippet and a new email, the
selection keeps the store and the snippet it returns is eligible. -/
theorem claim7_witness :
    (selectRandom db1 "z@b.com" 0).1 = db1 ∧
      (snip1.isCompleted = false ∧ snip1.reviewedBy.contains "z@b.com" = false ∧
        snip1 ∈ eligibleCodes db1 "z@b.com") :=
  ⟨(claim7_selection_sound db1 "z@b.com" 0 (by decide)).1,
   (claim7_selection_sound db1 "z@b.com" 0 (by decide)).2.1 snip1 (by decide)⟩

/-- C8 (confirmed): when every handler check passes (including store schema
validation) but the store's unique index on (codeId, reviewerEmail) would
be violated at write time — the mid-race state where a review document
already exists although `reviewedBy` passed the pre-check — the submission
is answered with status 400 and the message `"You have already reviewed
this code"`, identical to the pre-check path's response, nothing is
written, and no internal 500 error is surfaced. -/
theorem claim8_duplicate_race (db : DB) (inp : ReviewInput) (now : String) (code : Snippet)
    (h1 : requiredOk inp = true) (h2 : validEmail inp.reviewerEmail = true)
    (h3 : findById db inp.codeId = some code) (h4 : code.isCompleted = false)
    (h5 : code.reviewedBy.contains inp.reviewerEmail = false)
    (h6 : lineReviewError inp.lineReviews = none)
    (h7 : storeValidationOk inp.lineReviews = true)
    (h8 : uniqueIndexConflict db inp.codeId inp.reviewerEmail = true) :
    (submitReview db inp now).2 = SubmitResult.badRequest duplicateMsg ∧
      (submitReview db inp now).1 = db ∧
      (submitReview db inp now).2 ≠ SubmitResult.internalError submitFailedMsg := by
  have h5m : inp.reviewerEmail ∉ code.reviewedBy := by simpa using h5
  unfold submitReview
  simp [h1, h2, h3, h4, h5m, h6, h7, h8]

/-- C8 witness: the mid-race store `dbRace` (empty `reviewedBy`, conflicting
review document present) satisfies every hypothesis and X's resubmission is
answered exactly like the pre-check duplicate. -/
theorem claim8_witness :
    (submitReview dbRace inpX "t").2 = SubmitResult.badRequest duplicateMsg ∧
      (submitReview dbRace inpX "t").1 = dbRace ∧
      (submitReview dbRace inpX "t").2 ≠ SubmitResult.internalError submitFailedMsg :=
  claim8_duplicate_race dbRace inpX "t" snip1 (by decide) (by decide) (by decide) (by decide)
    (by decide) (by decide) (by decide) (by decide)

/-- C9 (confirmed): for an existing snippet and a present email, the
eligibility probe answers with `canReview` equal to the predicate the
random-selection query filters on, and `alreadyReviewed` equal to
membership of the email in `reviewedBy`; `canReview = true` holds exactly
when the snippet belongs to the eligible set selection draws from. -/
theorem claim9_can_review_matches_selection (db : DB) (id email : String) (code : Snippet)
    (he : email ≠ "") (hf : findById db id = some code) :
    canReviewHandler db id email =
      CanReviewResult.ok (eligPred email code) code.isCompleted
        (code.reviewedBy.contains email) code.reviewCount code.maxReviews ∧
      (eligPred email code = true ↔ code ∈ eligibleCodes db email) := by
  constructor
  · unfold canReviewHandler
    rw [if_neg he, hf]
    rfl
  · unfold eligibleCodes
    rw [List.mem_filter]
    have hmem : code ∈ db.codes := by
      unfold findById at hf
      exact List.mem_of_find?_eq_some hf
    exact ⟨fun h => ⟨hmem, h⟩, fun h => h.2⟩

/-- C9 witness: on the completed snippet of `db2`, the probe answers
`canReview = false`, `alreadyReviewed = true`, and the snippet is indeed
outside X's eligible set. -/
theorem claim9_witness :
    canReviewHandler db2 "c0" "x@a.com" =
      CanReviewResult.ok (eligPred "x@a.com" snip2) snip2.isCompleted
        (snip2.reviewedBy.contains "x@a.com") snip2.reviewCount snip2.maxReviews ∧
      (eligPred "x@a.com" snip2 = true ↔ snip2 ∈ eligibleCodes db2 "x@a.com") :=
  claim9_can_review_matches_selection db2 "c0" "x@a.com" snip2 (by decide) (by decide)

